import Mathlib

/-!
Verification of the three-parallel corpus engine (app.py / build_static.py).

Python strings are modelled as `List Char` (`Str`); the ASCII fragment of
`str.lower()` / `str.strip()` is modelled character-wise.  All definitions
are executable and structurally recursive so that concrete runs can be
evaluated with `decide`.
-/

abbrev Str := List Char

/-- Python whitespace set used by `str.strip()` (ASCII fragment). -/
def pyIsSpace (c : Char) : Bool :=
  c = ' ' || c = '\t' || c = '\n' || c = '\r' || c = '\x0b' || c = '\x0c'

/-- Python `s.strip()`. -/
def trimL (xs : Str) : Str :=
  ((xs.dropWhile pyIsSpace).reverse.dropWhile pyIsSpace).reverse

/-- Python `c.lower()` on a single character (ASCII fragment). -/
def toLowerCh (c : Char) : Char :=
  if 'A' ≤ c && c ≤ 'Z' then Char.ofNat (c.toNat + 32) else c

/-- Python `s.lower()` (character-wise). -/
def lowerS (xs : Str) : Str := xs.map toLowerCh

/-- Exact list-prefix test. -/
def startsL : Str → Str → Bool
  | [], _ => true
  | _ :: _, [] => false
  | a :: as, b :: bs => a = b && startsL as bs

/-- Case-insensitive prefix test (used by `re.IGNORECASE` matching). -/
def startsCI : Str → Str → Bool
  | [], _ => true
  | _ :: _, [] => false
  | a :: as, b :: bs => toLowerCh a = toLowerCh b && startsCI as bs

/-- Python `s.find(pat)`: index of the first occurrence, `none` for -1. -/
def findSub (pat : Str) : Str → Option Nat
  | [] => if startsL pat [] then some 0 else none
  | c :: t => if startsL pat (c :: t) then some 0 else (findSub pat t).map (· + 1)

/-- Python `pat in s`. -/
def hasSub (pat xs : Str) : Bool := (findSub pat xs).isSome

/-- Python `s.split('\n')`: auxiliary cons onto the first chunk. -/
def consHead (x : Char) : List Str → List Str
  | [] => [[x]]
  | h :: t => (x :: h) :: t

/-- Python `s.split('\n')`. -/
def splitNL : Str → List Str
  | [] => [[]]
  | '\n' :: xs => [] :: splitNL xs
  | x :: xs => consHead x (splitNL xs)

/-- Python `s.split('\n\n')` (leftmost, non-overlapping). -/
def splitBlank : Str → List Str
  | '\n' :: '\n' :: xs => [] :: splitBlank xs
  | x :: xs => consHead x (splitBlank xs)
  | [] => [[]]

/-- Python `sep.join(parts)`. -/
def joinSep (sep : Str) : List Str → Str
  | [] => []
  | [x] => x
  | x :: y :: t => x ++ sep ++ joinSep sep (y :: t)

/-- The blank-line separator `'\n\n'`. -/
def nn : Str := ['\n', '\n']

/-- One aligned paragraph record (`{'wenyan':…, 'zh':…, 'en':…}`). -/
structure Paragraph where
  wenyan : Str
  zh : Str
  en : Str
deriving DecidableEq

/-- Result of `parse_three_parallel_file` in app.py (content part). -/
structure ParseResult where
  wenyan : Str
  zh : Str
  en : Str
  paragraphs : List Paragraph
deriving DecidableEq

/-- `[line.strip() for line in group.split('\n') if line.strip()]`. -/
def groupLines (g : Str) : List Str :=
  ((splitNL g).map trimL).filter (fun l => !l.isEmpty)

/-- Accumulators of the parse loop in app.py (lines 161-200). -/
structure PartsAcc where
  ws : List Str
  zs : List Str
  es : List Str
  ps : List Paragraph
deriving DecidableEq

/-- The `for group in paragraph_groups` loop of app.py's parser. -/
def parseGroups : List Str → PartsAcc
  | [] => ⟨[], [], [], []⟩
  | g :: gs =>
    let acc := parseGroups gs
    match groupLines g with
    | w :: z :: e :: _ => ⟨w :: acc.ws, z :: acc.zs, e :: acc.es, ⟨w, z, e⟩ :: acc.ps⟩
    | [w, z] => ⟨w :: acc.ws, z :: acc.zs, [] :: acc.es, ⟨w, z, []⟩ :: acc.ps⟩
    | [w] => ⟨w :: acc.ws, [] :: acc.zs, [] :: acc.es, ⟨w, [], []⟩ :: acc.ps⟩
    | [] => acc

/-- app.py `parse_three_parallel_file`, content-level (the file has already
been read; `content = f.read().strip()` and the empty-content early return
are both modelled here). -/
def parse_three_parallel_content (content : Str) : ParseResult :=
  let c := trimL content
  if c.isEmpty then ⟨[], [], [], []⟩
  else
    let acc := parseGroups (splitBlank c)
    ⟨joinSep nn acc.ws, joinSep nn acc.zs, joinSep nn acc.es, acc.ps⟩

/-- Result of `parse_three_parallel_file` in build_static.py: same three
full-text strings but no `paragraphs` key. -/
structure StaticParseResult where
  wenyan : Str
  zh : Str
  en : Str
deriving DecidableEq

/-- Accumulators of the parse loop in build_static.py (lines 36-57). -/
structure PartsAcc3 where
  ws : List Str
  zs : List Str
  es : List Str
deriving DecidableEq

/-- The `for group in paragraph_groups` loop of build_static.py's parser. -/
def parseGroupsStatic : List Str → PartsAcc3
  | [] => ⟨[], [], []⟩
  | g :: gs =>
    let acc := parseGroupsStatic gs
    match groupLines g with
    | w :: z :: e :: _ => ⟨w :: acc.ws, z :: acc.zs, e :: acc.es⟩
    | [w, z] => ⟨w :: acc.ws, z :: acc.zs, [] :: acc.es⟩
    | [w] => ⟨w :: acc.ws, [] :: acc.zs, [] :: acc.es⟩
    | [] => acc

/-- build_static.py `parse_three_parallel_file`, content-level. -/
def parse_three_parallel_content_static (content : Str) : StaticParseResult :=
  let c := trimL content
  if c.isEmpty then ⟨[], [], []⟩
  else
    let acc := parseGroupsStatic (splitBlank c)
    ⟨joinSep nn acc.ws, joinSep nn acc.zs, joinSep nn acc.es⟩

/-- The per-group paragraph policy exactly as the claim states it:
three or more non-empty trimmed lines give the first three verbatim,
two lines leave the translation empty, one line leaves vernacular and
translation empty, zero lines contribute no paragraph. -/
def groupParagraphSpec (g : Str) : Option Paragraph :=
  match groupLines g with
  | [] => none
  | [w] => some ⟨w, [], []⟩
  | [w, z] => some ⟨w, z, []⟩
  | w :: z :: e :: _ => some ⟨w, z, e⟩

lemma parseGroups_ps (gs : List Str) :
    (parseGroups gs).ps = gs.filterMap groupParagraphSpec := by
  induction gs with
  | nil => rfl
  | cons g gs ih =>
    rcases hg : groupLines g with _ | ⟨w, _ | ⟨z, _ | ⟨e, t⟩⟩⟩ <;>
      simp [parseGroups, groupParagraphSpec, hg, ih]

lemma parseGroups_ws (gs : List Str) :
    (parseGroups gs).ws = (parseGroups gs).ps.map Paragraph.wenyan := by
  induction gs with
  | nil => rfl
  | cons g gs ih =>
    rcases hg : groupLines g with _ | ⟨w, _ | ⟨z, _ | ⟨e, t⟩⟩⟩ <;>
      simp [parseGroups, hg, ih]

lemma parseGroups_zs (gs : List Str) :
    (parseGroups gs).zs = (parseGroups gs).ps.map Paragraph.zh := by
  induction gs with
  | nil => rfl
  | cons g gs ih =>
    rcases hg : groupLines g with _ | ⟨w, _ | ⟨z, _ | ⟨e, t⟩⟩⟩ <;>
      simp [parseGroups, hg, ih]

lemma parseGroups_es (gs : List Str) :
    (parseGroups gs).es = (parseGroups gs).ps.map Paragraph.en := by
  induction gs with
  | nil => rfl
  | cons g gs ih =>
    rcases hg : groupLines g with _ | ⟨w, _ | ⟨z, _ | ⟨e, t⟩⟩⟩ <;>
      simp [parseGroups, hg, ih]

lemma parseGroupsStatic_eq (gs : List Str) :
    parseGroupsStatic gs
      = ⟨(parseGroups gs).ws, (parseGroups gs).zs, (parseGroups gs).es⟩ := by
  induction gs with
  | nil => rfl
  | cons g gs ih =>
    rcases hg : groupLines g with _ | ⟨w, _ | ⟨z, _ | ⟨e, t⟩⟩⟩ <;>
      simp [parseGroups, parseGroupsStatic, hg, ih]

/-- C1: the parser splits the trimmed content into groups on blank lines and
each group of non-empty trimmed lines yields, per the stated line-count
policy, at most one Paragraph with missing fields as empty strings; groups
with zero non-empty lines contribute nothing and lines beyond the third are
ignored. -/
theorem parse_paragraph_groups (content : Str) :
    (parse_three_parallel_content content).paragraphs
      = (splitBlank (trimL content)).filterMap groupParagraphSpec := by
  unfold parse_three_parallel_content
  generalize trimL content = c
  by_cases h : c.isEmpty
  · have he : c = [] := by
      cases hx : c with
      | nil => rfl
      | cons a t => rw [hx] at h; simp [List.isEmpty] at h
    subst he
    decide
  · simp [h, parseGroups_ps]

/-- C7: joining the paragraphs' original fields with a blank-line separator
reproduces the chapter-level full original string, and likewise for the
vernacular and translated fields. -/
theorem parse_fulltext_join (content : Str) :
    (parse_three_parallel_content content).wenyan
        = joinSep nn ((parse_three_parallel_content content).paragraphs.map Paragraph.wenyan)
      ∧ (parse_three_parallel_content content).zh
        = joinSep nn ((parse_three_parallel_content content).paragraphs.map Paragraph.zh)
      ∧ (parse_three_parallel_content content).en
        = joinSep nn ((parse_three_parallel_content content).paragraphs.map Paragraph.en) := by
  unfold parse_three_parallel_content
  generalize trimL content = c
  by_cases h : c.isEmpty
  · simp [h, joinSep]
  · simp [h, parseGroups_ws, parseGroups_zs, parseGroups_es]

/-- C9: the duplicated parser in build_static.py produces the same three
full-text strings as the parser in app.py on every raw content. -/
theorem static_parser_agrees (content : Str) :
    parse_three_parallel_content_static content
      = ⟨(parse_three_parallel_content content).wenyan,
         (parse_three_parallel_content content).zh,
         (parse_three_parallel_content content).en⟩ := by
  unfold parse_three_parallel_content parse_three_parallel_content_static
  generalize trimL content = c
  by_cases h : c.isEmpty
  · simp [h]
  · simp [h, parseGroupsStatic_eq]

/-- Chapter record as assembled by the hierarchy builder. -/
structure Chapter where
  id : Nat
  title : Str
  wenyan : Str
  zh : Str
  en : Str
  paragraphs : List Paragraph
deriving DecidableEq

/-- Category record (`{'id':…, 'title':…, 'chapters':…}`). -/
structure Category where
  id : Str
  title : Str
  chapters : List Chapter
deriving DecidableEq

/-- Book record (`{'id':…, 'title':…, 'categories':…}`). -/
structure Book where
  id : Str
  title : Str
  categories : List Category
deriving DecidableEq

/-- One match record produced by `search_in_books` (the `'type'` key of the
Python dict is the constructor). -/
inductive MatchRec where
  | title (content : Str) (highlight : Str)
  | content (language : Str) (paragraph_id : Nat) (content : Str)
      (highlight : Str) (full_paragraph : Paragraph)
deriving DecidableEq

/-- Context string carried by a match record. -/
def recContext : MatchRec → Str
  | .title c _ => c
  | .content _ _ c _ _ => c

/-- `re.sub` scan of `highlight_text`: wraps each leftmost, non-overlapping,
case-insensitive occurrence of the literal pattern `pat` in mark tags.  The
`Nat` argument counts characters of a just-matched occurrence that still
have to be skipped before scanning resumes. -/
def hlGo (pat : Str) : Nat → Str → Str
  | _, [] => []
  | n + 1, _ :: xs => hlGo pat n xs
  | 0, x :: xs =>
    if startsCI pat (x :: xs) then
      "<mark>".data ++ (x :: xs).take pat.length ++ "</mark>".data
        ++ hlGo pat (pat.length - 1) xs
    else x :: hlGo pat 0 xs

/-- app.py `highlight_text`. -/
def highlight_text (text query : Str) : Str :=
  if query.isEmpty || text.isEmpty then text else hlGo query 0 text

/-- Language tag `'wenyan'`. -/
def langWenyan : Str := "wenyan".data

/-- Language tag `'baihua'`. -/
def langBaihua : Str := "baihua".data

/-- Language tag `'english'`. -/
def langEnglish : Str := "english".data

/-- The `[('wenyan', …), ('baihua', …), ('english', …)]` list of app.py
lines 53-55. -/
def paragraphFields (p : Paragraph) : List (Str × Str) :=
  [(langWenyan, p.wenyan), (langBaihua, p.zh), (langEnglish, p.en)]

/-- Context extraction of app.py lines 58-60: 50 characters of context on
each side of the first occurrence, except that the right edge is computed
from the length of the raw `query`, not of `query_lower`. -/
def contextOf (query query_lower text : Str) : Str :=
  let i := (findSub query_lower (lowerS text)).getD 0
  let cs := i - 50
  let ce := min text.length (i + query.length + 50)
  (text.drop cs).take (ce - cs)

/-- The content-match record built at app.py lines 62-69. -/
def contentRecFor (query query_lower : Str) (idx : Nat) (p : Paragraph)
    (lang text : Str) : MatchRec :=
  let ctx := contextOf query query_lower text
  .content lang (idx + 1) ctx (highlight_text ctx query) p

/-- The inner `for lang, text in …` loop of app.py lines 53-69. -/
def contentMatchesFor (query query_lower : Str) (idx : Nat) (p : Paragraph) :
    List MatchRec :=
  (paragraphFields p).filterMap fun lt =>
    if hasSub query_lower (lowerS lt.2) then
      some (contentRecFor query query_lower idx p lt.1 lt.2)
    else none

/-- Python `enumerate` starting at `n`. -/
def withIdx {α : Type} : Nat → List α → List (Nat × α)
  | _, [] => []
  | n, x :: xs => (n, x) :: withIdx (n + 1) xs

/-- `search_scope in ('all', 'title')`. -/
def scopeHasTitle (search_scope : Str) : Bool :=
  search_scope == "all".data || search_scope == "title".data

/-- `search_scope in ('all', 'content')`. -/
def scopeHasContent (search_scope : Str) : Bool :=
  search_scope == "all".data || search_scope == "content".data

/-- Title-match block of app.py lines 42-48. -/
def titleMatches (query query_lower : Str) (ch : Chapter) : List MatchRec :=
  if hasSub query_lower (lowerS ch.title) then
    [.title ch.title (highlight_text ch.title query)]
  else []

/-- All match records one chapter produces (app.py lines 39-69). -/
def chapterMatches (query query_lower search_scope : Str) (ch : Chapter) :
    List MatchRec :=
  (if scopeHasTitle search_scope then titleMatches query query_lower ch else [])
    ++ (if scopeHasContent search_scope then
          (withIdx 0 ch.paragraphs).flatMap
            (fun ip => contentMatchesFor query query_lower ip.1 ip.2)
        else [])

/-- One entry of the `results` list (app.py lines 72-78). -/
structure SearchResult where
  book : Book
  category : Category
  chapter : Chapter
  match_list : List MatchRec
  relevance_score : Nat
deriving DecidableEq

/-- `if book_filter and book['id'] != book_filter: continue` — note that an
empty-string filter is falsy in Python and disables filtering. -/
def skipBook (book_filter : Option Str) (id : Str) : Bool :=
  match book_filter with
  | none => false
  | some f => !f.isEmpty && id != f

/-- Results contributed by one category of one book, in chapter order. -/
def chapterResults (query query_lower search_scope : Str) (b : Book)
    (c : Category) : List SearchResult :=
  c.chapters.filterMap fun ch =>
    if (chapterMatches query query_lower search_scope ch).isEmpty then none
    else some ⟨b, c, ch, chapterMatches query query_lower search_scope ch,
               (chapterMatches query query_lower search_scope ch).length⟩

/-- The full corpus walk of app.py lines 33-78, in traversal order
(book, then category, then chapter order), before sorting. -/
def collectResults (query query_lower search_scope : Str)
    (book_filter : Option Str) (books : List Book) : List SearchResult :=
  books.flatMap fun b =>
    if skipBook book_filter b.id then []
    else b.categories.flatMap fun c =>
      chapterResults query query_lower search_scope b c

/-- Stable descending insertion: `x` is placed in front of the first element
whose score does not exceed its own (elements already in the list came
earlier in traversal order only if they keep their place). -/
def insertDesc (x : SearchResult) : List SearchResult → List SearchResult
  | [] => [x]
  | y :: ys =>
    if y.relevance_score ≤ x.relevance_score then x :: y :: ys
    else y :: insertDesc x ys

/-- Stable sort by descending `relevance_score`, modelling the Python
`results.sort(key=…, reverse=True)` (Timsort is stable). -/
def sortDesc : List SearchResult → List SearchResult
  | [] => []
  | x :: xs => insertDesc x (sortDesc xs)

/-- The unsorted result list the code builds before sorting (with the
empty-query early return applied). -/
def unsortedResults (query search_scope : Str) (book_filter : Option Str)
    (books : List Book) : List SearchResult :=
  let query_lower := trimL (lowerS query)
  if query_lower.isEmpty then []
  else collectResults query query_lower search_scope book_filter books

/-- app.py `search_in_books`. -/
def search_in_books (query search_scope : Str) (book_filter : Option Str)
    (books : List Book) : List SearchResult :=
  let query_lower := trimL (lowerS query)
  if query_lower.isEmpty then []
  else sortDesc (collectResults query query_lower search_scope book_filter books)

lemma mem_insertDesc {x a : SearchResult} {l : List SearchResult} :
    a ∈ insertDesc x l ↔ a = x ∨ a ∈ l := by
  induction l with
  | nil => simp [insertDesc]
  | cons y ys ih =>
    by_cases h : y.relevance_score ≤ x.relevance_score
    · simp [insertDesc, h, ih]
    · simp [insertDesc, h, ih]
      tauto

lemma mem_sortDesc {a : SearchResult} {l : List SearchResult} :
    a ∈ sortDesc l ↔ a ∈ l := by
  induction l with
  | nil => simp [sortDesc]
  | cons y ys ih => simp [sortDesc, mem_insertDesc, ih]

lemma pairwise_insertDesc {x : SearchResult} {l : List SearchResult}
    (h : l.Pairwise (fun a b => b.relevance_score ≤ a.relevance_score)) :
    (insertDesc x l).Pairwise (fun a b => b.relevance_score ≤ a.relevance_score) := by
  induction l with
  | nil => simp [insertDesc]
  | cons y ys ih =>
    rcases List.pairwise_cons.mp h with ⟨hy, hys⟩
    by_cases hc : y.relevance_score ≤ x.relevance_score
    · simp only [insertDesc, if_pos hc]
      refine List.pairwise_cons.mpr ⟨?_, h⟩
      intro b hb
      rcases List.mem_cons.mp hb with hb | hb
      · exact hb ▸ hc
      · exact le_trans (hy b hb) hc
    · simp only [insertDesc, if_neg hc]
      refine List.pairwise_cons.mpr ⟨?_, ih hys⟩
      intro b hb
      rcases mem_insertDesc.mp hb with hb | hb
      · subst hb; omega
      · exact hy b hb

lemma pairwise_sortDesc (l : List SearchResult) :
    (sortDesc l).Pairwise (fun a b => b.relevance_score ≤ a.relevance_score) := by
  induction l with
  | nil => simp [sortDesc]
  | cons x xs ih => exact pairwise_insertDesc ih

lemma filter_insertDesc (x : SearchResult) (l : List SearchResult) (s : Nat) :
    (insertDesc x l).filter (fun r => r.relevance_score == s)
      = if x.relevance_score = s then
          x :: l.filter (fun r => r.relevance_score == s)
        else l.filter (fun r => r.relevance_score == s) := by
  induction l with
  | nil => by_cases hx : x.relevance_score = s <;> simp [insertDesc, hx]
  | cons y ys ih =>
    by_cases hc : y.relevance_score ≤ x.relevance_score
    · simp only [insertDesc, if_pos hc]
      by_cases hx : x.relevance_score = s <;> simp [List.filter_cons, hx]
    · simp only [insertDesc, if_neg hc]
      by_cases hx : x.relevance_score = s
      · have hy : ¬ y.relevance_score = s := by omega
        simp [List.filter_cons, hx, hy, ih]
      · by_cases hy : y.relevance_score = s <;>
          simp [List.filter_cons, hx, hy, ih]

lemma filter_sortDesc (l : List SearchResult) (s : Nat) :
    (sortDesc l).filter (fun r => r.relevance_score == s)
      = l.filter (fun r => r.relevance_score == s) := by
  induction l with
  | nil => simp [sortDesc]
  | cons x xs ih =>
    by_cases hx : x.relevance_score = s <;>
      simp [sortDesc, filter_insertDesc, hx, ih, List.filter_cons]

/-- C4: search results are sorted by non-increasing relevance score, and
results of equal score appear in the same relative order as the corpus
traversal (`unsortedResults`, built in book, then category, then chapter
order) produces them. -/
theorem search_sorted_stable (query search_scope : Str)
    (book_filter : Option Str) (books : List Book) :
    (search_in_books query search_scope book_filter books).Pairwise
        (fun a b => b.relevance_score ≤ a.relevance_score)
    ∧ ∀ s : Nat,
        (search_in_books query search_scope book_filter books).filter
            (fun r => r.relevance_score == s)
          = (unsortedResults query search_scope book_filter books).filter
              (fun r => r.relevance_score == s) := by
  unfold search_in_books unsortedResults
  by_cases h : (trimL (lowerS query)).isEmpty
  · simp [h]
  · simp [h, pairwise_sortDesc, filter_sortDesc]

lemma ifEmpty_eq_some {ms : List MatchRec} {v r : SearchResult} :
    (if ms.isEmpty then none else some v) = some r ↔ ms ≠ [] ∧ r = v := by
  cases ms with
  | nil => simp
  | cons a t => simp [List.isEmpty, eq_comm]

lemma mem_chapterResults {query ql sc : Str} {b : Book} {c : Category}
    {r : SearchResult} :
    r ∈ chapterResults query ql sc b c ↔
      ∃ ch ∈ c.chapters, chapterMatches query ql sc ch ≠ [] ∧
        r = ⟨b, c, ch, chapterMatches query ql sc ch,
             (chapterMatches query ql sc ch).length⟩ := by
  simp only [chapterResults, List.mem_filterMap]
  constructor
  · rintro ⟨ch, hch, he⟩
    rcases ifEmpty_eq_some.mp he with ⟨hne, hv⟩
    exact ⟨ch, hch, hne, hv⟩
  · rintro ⟨ch, hch, hne, hv⟩
    exact ⟨ch, hch, ifEmpty_eq_some.mpr ⟨hne, hv⟩⟩

lemma mem_collectResults {query ql sc : Str} {bf : Option Str}
    {books : List Book} {r : SearchResult} :
    r ∈ collectResults query ql sc bf books ↔
      ∃ b ∈ books, skipBook bf b.id = false ∧ ∃ c ∈ b.categories,
        ∃ ch ∈ c.chapters, chapterMatches query ql sc ch ≠ [] ∧
          r = ⟨b, c, ch, chapterMatches query ql sc ch,
               (chapterMatches query ql sc ch).length⟩ := by
  simp only [collectResults, List.mem_flatMap]
  constructor
  · rintro ⟨b, hb, hr⟩
    by_cases hskip : skipBook bf b.id
    · rw [if_pos hskip] at hr
      simp at hr
    · rw [if_neg hskip] at hr
      rcases List.mem_flatMap.mp hr with ⟨c, hc, hrc⟩
      rcases mem_chapterResults.mp hrc with ⟨ch, hch, hne, hv⟩
      exact ⟨b, hb, Bool.not_eq_true _ ▸ (by simpa using hskip), c, hc, ch, hch, hne, hv⟩
  · rintro ⟨b, hb, hskip, c, hc, ch, hch, hne, hv⟩
    refine ⟨b, hb, ?_⟩
    rw [if_neg (by simp [hskip])]
    exact List.mem_flatMap.mpr
      ⟨c, hc, mem_chapterResults.mpr ⟨ch, hch, hne, hv⟩⟩

lemma chapterMatches_eq_nil {query ql sc : Str} (h1 : scopeHasTitle sc = false)
    (h2 : scopeHasContent sc = false) (ch : Chapter) :
    chapterMatches query ql sc ch = [] := by
  simp [chapterMatches, h1, h2]

/-- C10: any scope other than `'all'`, `'title'` and `'content'` makes both
match branches dead, so the search result is empty for every query, corpus
and book filter. -/
theorem other_scope_empty (query search_scope : Str) (book_filter : Option Str)
    (books : List Book) (h1 : search_scope ≠ "all".data)
    (h2 : search_scope ≠ "title".data) (h3 : search_scope ≠ "content".data)
    (_hq : query ≠ []) :
    search_in_books query search_scope book_filter books = [] := by
  unfold search_in_books
  by_cases h : (trimL (lowerS query)).isEmpty
  · simp [h]
  · rw [if_neg h]
    have hsT : scopeHasTitle search_scope = false := by
      simp only [scopeHasTitle, Bool.or_eq_false_iff, beq_eq_false_iff_ne, ne_eq]
      exact ⟨h1, h2⟩
    have hsC : scopeHasContent search_scope = false := by
      simp only [scopeHasContent, Bool.or_eq_false_iff, beq_eq_false_iff_ne, ne_eq]
      exact ⟨h1, h3⟩
    have hnil : collectResults query (trimL (lowerS query)) search_scope book_filter books = [] := by
      cases hcoll : collectResults query (trimL (lowerS query)) search_scope book_filter books with
      | nil => rfl
      | cons r rest =>
        have hr : r ∈ collectResults query (trimL (lowerS query)) search_scope book_filter books := by
          rw [hcoll]; exact List.mem_cons_self _ _
        rcases mem_collectResults.mp hr with ⟨b, _, _, c, _, ch, _, hne, _⟩
        exact absurd (chapterMatches_eq_nil hsT hsC ch) hne
    rw [hnil]; rfl

lemma skipBook_false_iff {f id : Str} (hf : f ≠ []) :
    skipBook (some f) id = false ↔ id = f := by
  have hfe : f.isEmpty = false := by
    cases f with
    | nil => exact absurd rfl hf
    | cons a t => rfl
  simp [skipBook, hfe, bne]

/-- C6 (amended): whenever a non-empty book filter is supplied, only the
book whose id equals the filter contributes results, and if no book has
that id the result is empty.  (An empty-string filter is falsy in Python
and disables filtering, see the counterexample.) -/
theorem book_filter_restricts (query search_scope f : Str) (books : List Book)
    (hf : f ≠ []) :
    (∀ r ∈ search_in_books query search_scope (some f) books, r.book.id = f)
    ∧ ((∀ b ∈ books, b.id ≠ f) →
        search_in_books query search_scope (some f) books = []) := by
  unfold search_in_books
  by_cases h : (trimL (lowerS query)).isEmpty
  · simp [h]
  · rw [if_neg h]
    constructor
    · intro r hr
      rcases mem_collectResults.mp (mem_sortDesc.mp hr) with
        ⟨b, hb, hskip, c, hc, ch, hch, hne, he⟩
      subst he
      exact (skipBook_false_iff hf).mp hskip
    · intro hall
      have hnil : collectResults query (trimL (lowerS query)) search_scope (some f) books = [] := by
        cases hcoll : collectResults query (trimL (lowerS query)) search_scope (some f) books with
        | nil => rfl
        | cons r rest =>
          have hr : r ∈ collectResults query (trimL (lowerS query)) search_scope (some f) books := by
            rw [hcoll]; exact List.mem_cons_self _ _
          rcases mem_collectResults.mp hr with ⟨b, hb, hskip, _⟩
          exact absurd ((skipBook_false_iff hf).mp hskip) (hall b hb)
      rw [hnil]; rfl

/-- The match records a chapter produces during a run of `search_in_books`
(zero when the normalized query is empty, because of the early return at
app.py lines 30-31). -/
def producedMatches (query search_scope : Str) (ch : Chapter) : List MatchRec :=
  if (trimL (lowerS query)).isEmpty then []
  else chapterMatches query (trimL (lowerS query)) search_scope ch

/-- C5: a chapter appears in the result list iff, during the run, it
produced at least one match record (and was reachable: its book passes the
filter); its relevance score is exactly the number of match records it
produced, each title match and each per-language content match counting as
one. -/
theorem results_iff_produced (query search_scope : Str)
    (book_filter : Option Str) (books : List Book) :
    (∀ r ∈ search_in_books query search_scope book_filter books,
        r.match_list = producedMatches query search_scope r.chapter
        ∧ r.relevance_score = r.match_list.length
        ∧ r.match_list ≠ [])
    ∧ (∀ b ∈ books, skipBook book_filter b.id = false →
        ∀ c ∈ b.categories, ∀ ch ∈ c.chapters,
          producedMatches query search_scope ch ≠ [] →
          ∃ r ∈ search_in_books query search_scope book_filter books,
            r.book = b ∧ r.category = c ∧ r.chapter = ch
            ∧ r.relevance_score = (producedMatches query search_scope ch).length) := by
  by_cases h : (trimL (lowerS query)).isEmpty
  · constructor
    · intro r hr
      simp [search_in_books, h] at hr
    · intro b _ _ c _ ch _ hne
      exact absurd (by simp [producedMatches, h]) hne
  · have hprod : ∀ ch, producedMatches query search_scope ch
        = chapterMatches query (trimL (lowerS query)) search_scope ch := by
      intro ch; simp [producedMatches, h]
    constructor
    · intro r hr
      have hr' : r ∈ sortDesc (collectResults query (trimL (lowerS query))
          search_scope book_filter books) := by
        simpa [search_in_books, h] using hr
      rcases mem_collectResults.mp (mem_sortDesc.mp hr') with
        ⟨b, hb, hskip, c, hc, ch, hch, hne, he⟩
      subst he
      exact ⟨by simp [hprod], rfl, hne⟩
    · intro b hb hskip c hc ch hch hne
      rw [hprod ch] at hne
      refine ⟨⟨b, c, ch, chapterMatches query (trimL (lowerS query)) search_scope ch,
        (chapterMatches query (trimL (lowerS query)) search_scope ch).length⟩,
        ?_, rfl, rfl, rfl, ?_⟩
      · show _ ∈ search_in_books query search_scope book_filter books
        unfold search_in_books
        rw [if_neg h]
        exact mem_sortDesc.mpr
          (mem_collectResults.mpr ⟨b, hb, hskip, c, hc, ch, hch, hne, rfl⟩)
      · rw [hprod ch]

/-- A throwaway default used only to take the head of concrete result
lists in witnesses. -/
def dummyResult : SearchResult :=
  ⟨⟨[], [], []⟩, ⟨[], [], []⟩, ⟨0, [], [], [], [], []⟩, [], 0⟩

/-- Small concrete corpus used by the search witnesses. -/
def demoPara : Paragraph := ⟨"甲乙abc".data, "丙丁".data, "The King".data⟩

/-- Chapter of the witness corpus. -/
def demoCh : Chapter := ⟨1, "01 Title".data, [], [], [], [demoPara]⟩

/-- Book list of the witness corpus. -/
def demoBooksW : List Book :=
  [⟨"b1".data, "B1".data, [⟨"c1".data, "C1".data, [demoCh]⟩]⟩]

/-- Head result of the concrete run `search_in_books "king" "content"` over
the witness corpus. -/
def kingResult : SearchResult :=
  (search_in_books "king".data "content".data none demoBooksW).getD 0 dummyResult

theorem results_iff_produced_witness :
    kingResult.match_list = producedMatches "king".data "content".data kingResult.chapter
    ∧ kingResult.relevance_score = kingResult.match_list.length
    ∧ kingResult.match_list ≠ [] :=
  (results_iff_produced "king".data "content".data none demoBooksW).1
    kingResult (by decide)

theorem book_filter_restricts_witness :
    search_in_books "title".data "title".data (some "zz".data) demoBooksW = [] :=
  (book_filter_restricts "title".data "title".data "zz".data demoBooksW
    (by decide)).2 (by decide)

theorem other_scope_empty_witness :
    search_in_books "a".data "xyz".data none demoBooksW = [] :=
  other_scope_empty "a".data "xyz".data none demoBooksW
    (by decide) (by decide) (by decide) (by decide)

/-- C6 counterexample: a supplied empty-string book filter is falsy in
Python, so filtering is disabled although no book has the empty id; the
result list is not empty as the claim would require. -/
theorem c6_counterexample :
    (demoBooksW.all fun b => !(b.id == ([] : Str))) = true
    ∧ search_in_books "title".data "title".data (some []) demoBooksW ≠ [] := by
  decide

/-- Selects content-match records of a given language tag and 1-based
paragraph position. -/
def isContentFieldRec (lang : Str) (pid : Nat) : MatchRec → Bool
  | .content l pd _ _ _ => l == lang && pd == pid
  | _ => false

/-- The context window as the claim describes it: the 50 characters before
and after the first occurrence of the lower-cased query, clipped to the
field's bounds. -/
def claimWindow (query_lower text : Str) : Str :=
  let i := (findSub query_lower (lowerS text)).getD 0
  let cs := i - 50
  let ce := min text.length (i + query_lower.length + 50)
  (text.drop cs).take (ce - cs)

/-- The content-match record the claim asserts for a matching field. -/
def specContentRec (query : Str) (idx : Nat) (p : Paragraph)
    (lang text : Str) : MatchRec :=
  .content lang (idx + 1) (claimWindow (lowerS query) text)
    (highlight_text (claimWindow (lowerS query) text) query) p

lemma filter_contentMatchesFor_ne (query ql lang : Str) (j target : Nat)
    (p : Paragraph) (h : ¬ j + 1 = target) :
    (contentMatchesFor query ql j p).filter (isContentFieldRec lang target)
      = [] := by
  have hb : (j + 1 == target) = false := by simp [h]
  cases hw : hasSub ql (lowerS p.wenyan) <;>
  cases hz : hasSub ql (lowerS p.zh) <;>
  cases he : hasSub ql (lowerS p.en) <;>
    simp [contentMatchesFor, paragraphFields, hw, hz, he, contentRecFor,
          isContentFieldRec, List.filter_cons, hb]

lemma filter_contentMatchesFor_eq (query ql : Str) (j : Nat) (p : Paragraph)
    {lang text : Str} (hmem : (lang, text) ∈ paragraphFields p)
    (hmatch : hasSub ql (lowerS text) = true) :
    (contentMatchesFor query ql j p).filter (isContentFieldRec lang (j + 1))
      = [contentRecFor query ql j p lang text] := by
  have hmem' : (lang = langWenyan ∧ text = p.wenyan)
      ∨ (lang = langBaihua ∧ text = p.zh)
      ∨ (lang = langEnglish ∧ text = p.en) := by
    simpa [paragraphFields, Prod.ext_iff] using hmem
  have hbw : (langBaihua == langWenyan) = false := by decide
  have hew : (langEnglish == langWenyan) = false := by decide
  have hwb : (langWenyan == langBaihua) = false := by decide
  have heb : (langEnglish == langBaihua) = false := by decide
  have hwe : (langWenyan == langEnglish) = false := by decide
  have hbe : (langBaihua == langEnglish) = false := by decide
  rcases hmem' with ⟨hl, ht⟩ | ⟨hl, ht⟩ | ⟨hl, ht⟩ <;> subst hl <;> subst ht
  · cases hz : hasSub ql (lowerS p.zh) <;> cases he : hasSub ql (lowerS p.en) <;>
      simp [contentMatchesFor, paragraphFields, hmatch, hz, he, contentRecFor,
            isContentFieldRec, List.filter_cons, hbw, hew]
  · cases hw : hasSub ql (lowerS p.wenyan) <;> cases he : hasSub ql (lowerS p.en) <;>
      simp [contentMatchesFor, paragraphFields, hmatch, hw, he, contentRecFor,
            isContentFieldRec, List.filter_cons, hwb, heb]
  · cases hw : hasSub ql (lowerS p.wenyan) <;> cases hz : hasSub ql (lowerS p.zh) <;>
      simp [contentMatchesFor, paragraphFields, hmatch, hw, hz, contentRecFor,
            isContentFieldRec, List.filter_cons, hwe, hbe]

lemma filter_contentPart_none (query ql lang : Str) (target : Nat) :
    ∀ (ps : List Paragraph) (m : Nat), (∀ k, m ≤ k → ¬ k + 1 = target) →
      ((withIdx m ps).flatMap fun ip => contentMatchesFor query ql ip.1 ip.2).filter
          (isContentFieldRec lang target) = [] := by
  intro ps
  induction ps with
  | nil => intro m _; simp [withIdx]
  | cons p0 rest ih =>
    intro m hk
    simp only [withIdx, List.flatMap_cons, List.filter_append]
    rw [filter_contentMatchesFor_ne query ql lang m target p0 (hk m le_rfl),
        ih (m + 1) (fun k hk' => hk k (by omega))]
    rfl

lemma filter_contentPart (query ql : Str) {lang text : Str} {p : Paragraph} :
    ∀ (ps : List Paragraph) (m i : Nat), ps.get? i = some p →
      (lang, text) ∈ paragraphFields p →
      hasSub ql (lowerS text) = true →
      ((withIdx m ps).flatMap fun ip => contentMatchesFor query ql ip.1 ip.2).filter
          (isContentFieldRec lang (m + i + 1))
        = [contentRecFor query ql (m + i) p lang text] := by
  intro ps
  induction ps with
  | nil => intro m i hget; simp at hget
  | cons p0 rest ih =>
    intro m i hget hmem hmatch
    cases i with
    | zero =>
      have hp : p0 = p := by simpa using hget
      subst hp
      simp only [withIdx, List.flatMap_cons, List.filter_append, Nat.add_zero]
      rw [filter_contentMatchesFor_eq query ql m p0 hmem hmatch,
          filter_contentPart_none query ql lang (m + 1) rest (m + 1)
            (fun k hk => by omega)]
      rfl
    | succ i' =>
      have hget' : rest.get? i' = some p := by simpa using hget
      have harith : m + (i' + 1) = (m + 1) + i' := by omega
      rw [harith]
      simp only [withIdx, List.flatMap_cons, List.filter_append]
      rw [filter_contentMatchesFor_ne query ql lang m ((m + 1) + i' + 1) p0 (by omega),
          ih (m + 1) i' hget' hmem hmatch]
      rfl

lemma filter_titlePart (query ql lang : Str) (target : Nat) (sc : Str)
    (ch : Chapter) :
    ((if scopeHasTitle sc then titleMatches query ql ch else []).filter
        (isContentFieldRec lang target)) = [] := by
  by_cases hs : scopeHasTitle sc
  · simp only [if_pos hs, titleMatches]
    by_cases ht : hasSub ql (lowerS ch.title) = true
    · simp [ht, isContentFieldRec, List.filter_cons]
    · simp [ht]
  · simp [hs]

lemma scopeHasContent_of (sc : Str)
    (hsc : sc = "all".data ∨ sc = "content".data) :
    scopeHasContent sc = true := by
  rcases hsc with h | h <;> subst h <;> decide

lemma contentRecFor_spec (query : Str)
    (hq : trimL (lowerS query) = lowerS query) (i : Nat) (p : Paragraph)
    (lang text : Str) :
    contentRecFor query (trimL (lowerS query)) i p lang text
      = specContentRec query i p lang text := by
  have hlen : (lowerS query).length = query.length := by simp [lowerS]
  simp only [contentRecFor, specContentRec, contextOf, claimWindow, hq, hlen]

/-- C3 (amended): for queries with no surrounding whitespace (the raw query
equals its stripped form) and a non-empty lower-casing, under scope `all`
or `content`, each paragraph field that contains the lower-cased query
(case-insensitively) contributes exactly one content-match record, carrying
the language tag, the 1-based paragraph position, the ±50-character context
window around the first occurrence clipped to the field bounds, the
highlighted context and the full paragraph.  The original claim quantifies
over all queries; it fails for queries with surrounding whitespace (see the
counterexample). -/
theorem content_match_record (query search_scope : Str)
    (book_filter : Option Str) (books : List Book)
    (hq : trimL (lowerS query) = lowerS query) (hne : query ≠ [])
    (hsc : search_scope = "all".data ∨ search_scope = "content".data) :
    ∀ r ∈ search_in_books query search_scope book_filter books,
    ∀ i p, r.chapter.paragraphs.get? i = some p →
    ∀ lang text, (lang, text) ∈ paragraphFields p →
    hasSub (trimL (lowerS query)) (lowerS text) = true →
    r.match_list.filter (isContentFieldRec lang (i + 1))
      = [specContentRec query i p lang text] := by
  intro r hr i p hget lang text hmem hmatch
  have hlq : lowerS query ≠ [] := by
    cases query with
    | nil => exact absurd rfl hne
    | cons a t => simp [lowerS]
  have hql : ¬ (trimL (lowerS query)).isEmpty = true := by
    rw [hq]
    cases hl : lowerS query with
    | nil => exact absurd hl hlq
    | cons a t => simp
  have hr' : r ∈ sortDesc (collectResults query (trimL (lowerS query))
      search_scope book_filter books) := by
    simpa [search_in_books, hql] using hr
  rcases mem_collectResults.mp (mem_sortDesc.mp hr') with
    ⟨b, _, _, c, _, ch, _, _, he⟩
  subst he
  show (chapterMatches query (trimL (lowerS query)) search_scope ch).filter
      (isContentFieldRec lang (i + 1)) = _
  unfold chapterMatches
  rw [List.filter_append, filter_titlePart, List.nil_append,
      if_pos (scopeHasContent_of search_scope hsc)]
  have hpart := filter_contentPart query (trimL (lowerS query))
    ch.paragraphs 0 i hget hmem hmatch
  simpa [contentRecFor_spec query hq] using hpart

theorem content_match_record_witness :
    kingResult.match_list.filter (isContentFieldRec langEnglish (0 + 1))
      = [specContentRec "king".data 0 demoPara langEnglish demoPara.en] :=
  content_match_record "king".data "content".data none demoBooksW
    (by decide) (by decide) (Or.inr rfl) kingResult (by decide)
    0 demoPara (by decide) langEnglish demoPara.en (by decide) (by decide)

/-- Whitespace-only query used in the C3 counterexample. -/
def c3qA : Str := [' ']

/-- A field of 62 characters whose match sits near the start, so that the
right window edge is visible. -/
def c3textB : Str := ' ' :: 'a' :: List.replicate 60 'x'

/-- Paragraph holding `c3textB` as its original-language field. -/
def c3ParaB : Paragraph := ⟨c3textB, [], []⟩

/-- One-chapter corpus around `c3ParaB`. -/
def c3BooksB : List Book :=
  [⟨"b".data, "b".data, [⟨"c".data, "c".data,
    [⟨1, [], [], [], [], [c3ParaB]⟩]⟩]⟩]

/-- C3 counterexample, two concrete runs: (a) for the query `' '` the
English field contains the lower-cased query yet search emits no record at
all (the stripped query is empty, early return); (b) for the query `' a'`
the single emitted record's context has 53 characters, while the window the
claim describes has 52, whether the lower-cased query is read as `' a'` or
as its stripped form `'a'` — the code adds `len(query)`, not the length of
the normalized query, to the right edge. -/
theorem c3_counterexample :
    (hasSub (lowerS c3qA) (lowerS demoPara.en) = true
      ∧ search_in_books c3qA "content".data none demoBooksW = [])
    ∧ ((search_in_books (" a".data) "content".data none c3BooksB).map
          (fun r => r.match_list.map recContext) = [[c3textB.take 53]]
      ∧ (claimWindow (lowerS " a".data) c3textB).length = 52
      ∧ (claimWindow (trimL (lowerS " a".data)) c3textB).length = 52) := by
  decide

/-- A snapshot of an on-disk directory tree. -/
inductive FSEntry where
  | file (content : Str)
  | dir (entries : List (Str × FSEntry))

/-- `os.path.isdir`. -/
def FSEntry.isDir : FSEntry → Bool
  | .dir _ => true
  | .file _ => false

/-- Errors the loaders can raise. -/
inductive PyErr where
  | keyError (k : Str)
  | isADirectoryError
deriving DecidableEq

/-- Python-style fallible result with decidable equality. -/
inductive PyRes (α : Type) where
  | ok (v : α)
  | error (e : PyErr)
deriving DecidableEq

/-- Whether a run completed without an exception. -/
def PyRes.isOk {α : Type} : PyRes α → Bool
  | .ok _ => true
  | .error _ => false

/-- Python string `<` (code-point lexicographic). -/
def lexLt : Str → Str → Bool
  | [], [] => false
  | [], _ :: _ => true
  | _ :: _, [] => false
  | a :: as, b :: bs => if a < b then true else if b < a then false else lexLt as bs

/-- Stable insertion for `sorted(os.listdir(…))`. -/
def insEntry (x : Str × FSEntry) : List (Str × FSEntry) → List (Str × FSEntry)
  | [] => [x]
  | y :: ys => if lexLt y.1 x.1 then y :: insEntry x ys else x :: y :: ys

/-- `sorted(os.listdir(…))`, keeping each name paired with its entry. -/
def sortEntries : List (Str × FSEntry) → List (Str × FSEntry)
  | [] => []
  | x :: xs => insEntry x (sortEntries xs)

/-- Python `s.endswith(suf)`. -/
def endsWithS (xs suf : Str) : Bool := startsL suf.reverse xs.reverse

/-- The `.txt` chapter-file extension. -/
def txtExt : Str := ".txt".data

/-- Chapter title derivation: strip `.txt`, then drop an optional
`prefix_`-style ordinal before the first underscore. -/
def chapterTitleOf (filename : Str) : Str :=
  let stem := filename.take (filename.length - 4)
  if stem.contains '_' then (stem.dropWhile (fun c => !(c = '_'))).drop 1
  else stem

/-- Static book configuration (name and category labels). -/
structure BookCfg where
  name : Str
  categories : List (Str × Str)
deriving DecidableEq

/-- The `book_configs` table of the four histories. -/
def book_configs : List (Str × BookCfg) :=
  [("shiji".data, ⟨"史记".data,
      [("benji".data, "本纪".data), ("shijia".data, "世家".data),
       ("liezhuan".data, "列传".data), ("shu".data, "书".data),
       ("biao".data, "表".data)]⟩),
   ("hanshu".data, ⟨"汉书".data,
      [("benji".data, "本纪".data), ("biao".data, "表".data),
       ("zhi".data, "志".data), ("liezhuan".data, "列传".data)]⟩),
   ("houhanshu".data, ⟨"后汉书".data,
      [("liezhuan".data, "列传".data), ("diji".data, "帝纪".data),
       ("shu".data, "书".data)]⟩),
   ("sanguozhi".data, ⟨"三国志".data,
      [("wei".data, "魏书".data), ("shu".data, "蜀书".data),
       ("wu".data, "吴书".data)]⟩)]

/-- `book_configs.get(book_id, {"name": book_id, "categories": {}})`. -/
def cfgFor (book_id : Str) : BookCfg :=
  match book_configs.find? (fun kv => kv.1 == book_id) with
  | some kv => kv.2
  | none => ⟨book_id, []⟩

/-- `book_config["categories"].get(cat_dir, cat_dir)`. -/
def catTitleFor (cfg : BookCfg) (cat_dir : Str) : Str :=
  match cfg.categories.find? (fun kv => kv.1 == cat_dir) with
  | some kv => kv.2
  | none => cat_dir

/-- app.py `parse_three_parallel_file` at file level: a missing file is a
caught `FileNotFoundError` (empty result); opening a directory raises
`IsADirectoryError`, which the code does not catch. -/
def parse_three_parallel_file : Option FSEntry → PyRes ParseResult
  | none => .ok ⟨[], [], [], []⟩
  | some (.dir _) => .error .isADirectoryError
  | some (.file c) => .ok (parse_three_parallel_content c)

/-- The chapter loop of app.py lines 249-268 (`i` is the running
`enumerate` index). -/
def loadChaptersApp : Nat → List (Str × FSEntry) → PyRes (List Chapter)
  | _, [] => .ok []
  | i, (name, e) :: rest =>
    match parse_three_parallel_file (some e) with
    | .error err => .error err
    | .ok r =>
      match loadChaptersApp (i + 1) rest with
      | .error err => .error err
      | .ok chs =>
        .ok (⟨i + 1, chapterTitleOf name, r.wenyan, r.zh, r.en, r.paragraphs⟩ :: chs)

/-- The category loop of app.py lines 238-275: non-directories are skipped,
a category with no chapters is dropped. -/
def loadCategoriesApp (cfg : BookCfg) : List (Str × FSEntry) → PyRes (List Category)
  | [] => .ok []
  | (_, .file _) :: rest => loadCategoriesApp cfg rest
  | (name, .dir centries) :: rest =>
    match loadChaptersApp 0
        (sortEntries (centries.filter (fun p => endsWithS p.1 txtExt))) with
    | .error err => .error err
    | .ok chs =>
      match loadCategoriesApp cfg rest with
      | .error err => .error err
      | .ok cats =>
        if chs.isEmpty then .ok cats
        else .ok (⟨name, catTitleFor cfg name, chs⟩ :: cats)

/-- The book loop of app.py lines 227-282: non-directories are skipped,
a book with no surviving categories is dropped. -/
def loadBooksApp : List (Str × FSEntry) → PyRes (List Book)
  | [] => .ok []
  | (_, .file _) :: rest => loadBooksApp rest
  | (name, .dir bentries) :: rest =>
    match loadCategoriesApp (cfgFor name) (sortEntries bentries) with
    | .error err => .error err
    | .ok cats =>
      match loadBooksApp rest with
      | .error err => .error err
      | .ok bks =>
        if cats.isEmpty then .ok bks
        else .ok (⟨name, (cfgFor name).name, cats⟩ :: bks)

/-- app.py `load_books_from_raw`: a missing or non-directory root yields
the empty corpus. -/
def load_books_from_raw : FSEntry → PyRes (List Book)
  | .file _ => .ok []
  | .dir entries => loadBooksApp (sortEntries entries)

/-- build_static.py `parse_three_parallel_file` at file level. -/
def parse_three_parallel_file_static : Option FSEntry → PyRes StaticParseResult
  | none => .ok ⟨[], [], []⟩
  | some (.dir _) => .error .isADirectoryError
  | some (.file c) => .ok (parse_three_parallel_content_static c)

/-- A dynamically-typed dict value. -/
inductive PVal where
  | s (v : Str)
  | ps (v : List Paragraph)
deriving DecidableEq

/-- The dict build_static.py's parser returns (lines 59-63): exactly the
keys `wenyan`, `zh`, `en` — there is no `paragraphs` key. -/
def staticResultDict (r : StaticParseResult) : List (Str × PVal) :=
  [("wenyan".data, .s r.wenyan), ("zh".data, .s r.zh), ("en".data, .s r.en)]

/-- Python `d[k]`: `KeyError` when the key is absent. -/
def dictGet (d : List (Str × PVal)) (k : Str) : PyRes PVal :=
  match d.find? (fun kv => kv.1 == k) with
  | some kv => .ok kv.2
  | none => .error (.keyError k)

/-- Untagging a dict value known to be a string. -/
def asStr : PVal → Str
  | .s v => v
  | .ps _ => []

/-- Untagging a dict value known to be a paragraph list. -/
def asParas : PVal → List Paragraph
  | .ps v => v
  | .s _ => []

/-- Chapter construction of build_static.py lines 108-127: every field is
read out of the parse-result dict; the `content['paragraphs']` access is
the one that raises because the static parser never produces that key. -/
def loadChapterStatic (i : Nat) (name : Str) (e : FSEntry) : PyRes Chapter :=
  match parse_three_parallel_file_static (some e) with
  | .error err => .error err
  | .ok r =>
    match dictGet (staticResultDict r) "wenyan".data with
    | .error err => .error err
    | .ok w =>
      match dictGet (staticResultDict r) "zh".data with
      | .error err => .error err
      | .ok z =>
        match dictGet (staticResultDict r) "en".data with
        | .error err => .error err
        | .ok e3 =>
          match dictGet (staticResultDict r) "paragraphs".data with
          | .error err => .error err
          | .ok ps =>
            .ok ⟨i + 1, chapterTitleOf name, asStr w, asStr z, asStr e3, asParas ps⟩

/-- The chapter loop of build_static.py's new-style branch. -/
def loadChaptersStatic : Nat → List (Str × FSEntry) → PyRes (List Chapter)
  | _, [] => .ok []
  | i, (name, e) :: rest =>
    match loadChapterStatic i name e with
    | .error err => .error err
    | .ok ch =>
      match loadChaptersStatic (i + 1) rest with
      | .error err => .error err
      | .ok chs => .ok (ch :: chs)

/-- The category loop of build_static.py's new-style branch. -/
def loadCategoriesStatic (cfg : BookCfg) :
    List (Str × FSEntry) → PyRes (List Category)
  | [] => .ok []
  | (_, .file _) :: rest => loadCategoriesStatic cfg rest
  | (name, .dir centries) :: rest =>
    match loadChaptersStatic 0
        (sortEntries (centries.filter (fun p => endsWithS p.1 txtExt))) with
    | .error err => .error err
    | .ok chs =>
      match loadCategoriesStatic cfg rest with
      | .error err => .error err
      | .ok cats =>
        if chs.isEmpty then .ok cats
        else .ok (⟨name, catTitleFor cfg name, chs⟩ :: cats)

/-- build_static.py lines 87-89: a book directory is new-style when it has
a subdirectory among its non-`.txt` entries. -/
def hasCategories (bentries : List (Str × FSEntry)) : Bool :=
  bentries.any (fun p => !(endsWithS p.1 txtExt) && p.2.isDir)

/-- Old-format file read: a missing file is a caught `FileNotFoundError`
(empty content); a directory of that name raises. -/
def readOldFile (bentries : List (Str × FSEntry)) (fname : Str) : PyRes Str :=
  match bentries.find? (fun p => p.1 == fname) with
  | none => .ok []
  | some (_, .dir _) => .error .isADirectoryError
  | some (_, .file c) => .ok c

/-- Python `s.splitlines()` restricted to `\n` boundaries. -/
def splitlinesPy (xs : Str) : List Str :=
  if xs.isEmpty then []
  else if xs.getLast? == some '\n' then (splitNL xs).dropLast
  else splitNL xs

/-- Flush of the running chapter in the old-format `parse` helper. -/
def flushOld (curTitle : Str) (curLines : List Str) : List (Str × Str) :=
  if !curLines.isEmpty || !curTitle.isEmpty then
    [(trimL curTitle, trimL (joinSep ['\n'] curLines))]
  else []

/-- Line loop of the old-format `parse` helper (build_static.py lines
159-173): title × content pairs. -/
def parseChOldGo (curTitle : Str) (curLines : List Str) :
    List Str → List (Str × Str)
  | [] => flushOld curTitle curLines
  | l :: ls =>
    if startsL "## ".data l then
      flushOld curTitle curLines ++ parseChOldGo (trimL (l.drop 3)) [] ls
    else parseChOldGo curTitle (curLines ++ [l]) ls

/-- build_static.py's old-format `parse` helper. -/
def parseChaptersOld (text : Str) : List (Str × Str) :=
  match parseChOldGo [] [] (splitlinesPy text) with
  | [] => [([], trimL text)]
  | chs => chs

/-- Chapter assembly of build_static.py lines 183-188 (the old-format
chapter dict carries no `paragraphs` key; nothing ever reads one, so the
model stores an empty list). -/
def oldChapterAt (chw chz che : List (Str × Str)) (i : Nat) : Chapter :=
  ⟨i + 1,
   (if !((chw.getD i ([], [])).1.isEmpty) then (chw.getD i ([], [])).1
    else if !((chz.getD i ([], [])).1.isEmpty) then (chz.getD i ([], [])).1
    else if !((che.getD i ([], [])).1.isEmpty) then (che.getD i ([], [])).1
    else "第".data ++ (Nat.repr (i + 1)).data ++ "章".data),
   (chw.getD i ([], [])).2, (chz.getD i ([], [])).2, (che.getD i ([], [])).2,
   []⟩

/-- Old-format branch of build_static.py (lines 144-199). -/
def loadOldBook (book_id : Str) (bentries : List (Str × FSEntry)) : PyRes Book :=
  match readOldFile bentries "wenyan.txt".data with
  | .error err => .error err
  | .ok cw =>
    match readOldFile bentries "zh.txt".data with
    | .error err => .error err
    | .ok cz =>
      match readOldFile bentries "en.txt".data with
      | .error err => .error err
      | .ok ce =>
        let chw := parseChaptersOld cw
        let chz := parseChaptersOld cz
        let che := parseChaptersOld ce
        let n := if !chw.isEmpty && !chz.isEmpty && !che.isEmpty
          then min chw.length (min chz.length che.length)
          else max chw.length (max chz.length che.length)
        .ok ⟨book_id, book_id,
          [⟨"default".data, "章节".data,
            (List.range n).map (oldChapterAt chw chz che)⟩]⟩

/-- The book loop of build_static.py `load_books_from_raw`. -/
def loadBooksStatic : List (Str × FSEntry) → PyRes (List Book)
  | [] => .ok []
  | (_, .file _) :: rest => loadBooksStatic rest
  | (name, .dir bentries) :: rest =>
    if hasCategories bentries then
      match loadCategoriesStatic (cfgFor name) (sortEntries bentries) with
      | .error err => .error err
      | .ok cats =>
        match loadBooksStatic rest with
        | .error err => .error err
        | .ok bks =>
          if cats.isEmpty then .ok bks
          else .ok (⟨name, (cfgFor name).name, cats⟩ :: bks)
    else
      match loadOldBook name bentries with
      | .error err => .error err
      | .ok bk =>
        match loadBooksStatic rest with
        | .error err => .error err
        | .ok bks => .ok (bk :: bks)

/-- build_static.py `load_books_from_raw`. -/
def load_books_from_raw_static : FSEntry → PyRes (List Book)
  | .file _ => .ok []
  | .dir entries => loadBooksStatic (sortEntries entries)

/-- A minimal new-style `data/raw` layout: one book, one category, one
chapter file. -/
def c2tree : FSEntry :=
  .dir [("shiji".data, .dir [("benji".data, .dir
    [("01_a.txt".data, .file "甲\n乙\nc".data)])])]

/-- C2: on a new-style book/category/chapter layout the static-export
builder raises `KeyError('paragraphs')` (its parser returns no such key,
but line 126 reads it), so corpus construction is not exception-free; the
app.py builder handles the same tree fine, and a non-directory root yields
the empty corpus. -/
theorem static_build_keyerror :
    load_books_from_raw_static c2tree = .error (.keyError "paragraphs".data)
    ∧ (load_books_from_raw c2tree).isOk = true
    ∧ load_books_from_raw (.file []) = .ok [] := by
  decide

lemma loadCategoriesApp_nonempty (cfg : BookCfg) :
    ∀ (es : List (Str × FSEntry)) (cats : List Category),
      loadCategoriesApp cfg es = .ok cats → ∀ c ∈ cats, c.chapters ≠ [] := by
  intro es
  induction es with
  | nil =>
    intro cats h c hc
    injection h with h'
    subst h'
    simp at hc
  | cons p rest ih =>
    rcases p with ⟨name, e⟩
    cases e with
    | file c0 =>
      intro cats h
      simp only [loadCategoriesApp] at h
      exact ih cats h
    | dir centries =>
      intro cats h
      simp only [loadCategoriesApp] at h
      split at h
      · exact PyRes.noConfusion h
      · rename_i chs hch
        split at h
        · exact PyRes.noConfusion h
        · rename_i cats' hrec
          split at h
          · injection h with h'
            subst h'
            exact ih cats' hrec
          · rename_i hemp
            injection h with h'
            subst h'
            intro c hc
            rcases List.mem_cons.mp hc with hc | hc
            · subst hc
              intro he
              rw [show (⟨name, catTitleFor cfg name, chs⟩ : Category).chapters = chs from rfl] at he
              rw [he] at hemp
              exact hemp rfl
            · exact ih cats' hrec c hc

lemma loadBooksApp_nonempty :
    ∀ (es : List (Str × FSEntry)) (bks : List Book),
      loadBooksApp es = .ok bks →
      ∀ b ∈ bks, b.categories ≠ [] ∧ ∀ c ∈ b.categories, c.chapters ≠ [] := by
  intro es
  induction es with
  | nil =>
    intro bks h b hb
    injection h with h'
    subst h'
    simp at hb
  | cons p rest ih =>
    rcases p with ⟨name, e⟩
    cases e with
    | file c0 =>
      intro bks h
      simp only [loadBooksApp] at h
      exact ih bks h
    | dir bentries =>
      intro bks h
      simp only [loadBooksApp] at h
      split at h
      · exact PyRes.noConfusion h
      · rename_i cats hcats
        split at h
        · exact PyRes.noConfusion h
        · rename_i bks' hrec
          split at h
          · injection h with h'
            subst h'
            exact ih bks' hrec
          · rename_i hemp
            injection h with h'
            subst h'
            intro b hb
            rcases List.mem_cons.mp hb with hb | hb
            · subst hb
              constructor
              · intro he
                rw [show (⟨name, (cfgFor name).name, cats⟩ : Book).categories = cats from rfl] at he
                rw [he] at hemp
                exact hemp rfl
              · intro c hc
                exact loadCategoriesApp_nonempty (cfgFor name)
                  (sortEntries bentries) cats hcats c hc
            · exact ih bks' hrec b hb

/-- C8: whenever the app.py hierarchy builder returns a corpus, no book in
it has an empty category list and no category has an empty chapter list:
empty categories are dropped, and books whose categories all vanish are
dropped too. -/
theorem corpus_no_empty_levels (t : FSEntry) (books : List Book)
    (h : load_books_from_raw t = .ok books) :
    ∀ b ∈ books, b.categories ≠ [] ∧ ∀ c ∈ b.categories, c.chapters ≠ [] := by
  cases t with
  | file c =>
    simp only [load_books_from_raw] at h
    injection h with h'
    subst h'
    intro b hb
    simp at hb
  | dir entries =>
    simp only [load_books_from_raw] at h
    exact loadBooksApp_nonempty (sortEntries entries) books h

/-- Concrete raw tree for the C8 witness. -/
def c8tree : FSEntry :=
  .dir [("mybook".data, .dir [("mycat".data, .dir
    [("01_a.txt".data, .file "x\ny\nz".data)])])]

/-- The book the app.py builder produces from `c8tree`. -/
def c8book : Book :=
  ⟨"mybook".data, "mybook".data,
   [⟨"mycat".data, "mycat".data,
     [⟨1, "a".data, "x".data, "y".data, "z".data,
       [⟨"x".data, "y".data, "z".data⟩]⟩]⟩]⟩

theorem corpus_no_empty_levels_witness : c8book.categories ≠ [] :=
  (corpus_no_empty_levels c8tree [c8book] (by decide) c8book (by decide)).1
